import Mathlib

/-! Formal model of the agent IPC bridge implemented in
apps/tauri-shell/src-tauri/src/agent_ipc.rs and main.rs: the frame
assembler (newline-delimited byte framing with an overflow ceiling), the
protocol codec (JSON requests and tagged JSON responses), the two stream
pumps (stdout and stderr reader tasks), the request channel
(send_request with broken-pipe classification) and the process
supervisor (spawn_agent). Bytes are modelled as natural numbers, the
line terminator is byte 10. -/

/-- 10 MiB ceiling from the stdout reader task:
MAX_MESSAGE_SIZE = 10 * 1024 * 1024. -/
def MAX_MESSAGE_SIZE : Nat := 10 * 1024 * 1024

/-- One pass of the drain loop of a reader task: scan the buffer for
byte 10, and for every terminator found drain the bytes up to and
including it as one frame.  The accumulator holds (reversed) the bytes
read so far that belong to the current unterminated frame; the result is
the list of complete frames (each ending in byte 10) and the leftover
bytes after the last terminator. -/
def splitFramesAux : List Nat → List Nat → List (List Nat) × List Nat
  | acc, [] => ([], acc.reverse)
  | acc, b :: rest =>
    if b = 10 then
      ((acc.reverse ++ [10]) :: (splitFramesAux [] rest).1, (splitFramesAux [] rest).2)
    else
      splitFramesAux (b :: acc) rest

/-- Frames and leftover of a byte buffer, as extracted by the
while-let drain loop of the reader tasks. -/
def splitFrames (l : List Nat) : List (List Nat) × List Nat :=
  splitFramesAux [] l

/-- One UTF-8 character: given the lead byte and the following bytes,
return the decoded code point and the remaining bytes, rejecting stray
continuation bytes, truncated sequences, overlong encodings, surrogates
and code points above 0x10FFFF. -/
def utf8Step (b : Nat) (rest : List Nat) : Option (Nat × List Nat) :=
  if b < 128 then some (b, rest)
  else if b < 194 then none
  else if b < 224 then
    match rest with
    | b1 :: rest1 =>
      if 128 ≤ b1 ∧ b1 < 192 then
        some ((b - 192) * 64 + (b1 - 128), rest1)
      else none
    | [] => none
  else if b < 240 then
    match rest with
    | b1 :: b2 :: rest2 =>
      if (128 ≤ b1 ∧ b1 < 192) ∧ (128 ≤ b2 ∧ b2 < 192)
          ∧ (b ≠ 224 ∨ 160 ≤ b1) ∧ (b ≠ 237 ∨ b1 < 160) then
        some ((b - 224) * 4096 + (b1 - 128) * 64 + (b2 - 128), rest2)
      else none
    | _ => none
  else if b < 245 then
    match rest with
    | b1 :: b2 :: b3 :: rest3 =>
      if (128 ≤ b1 ∧ b1 < 192) ∧ (128 ≤ b2 ∧ b2 < 192) ∧ (128 ≤ b3 ∧ b3 < 192)
          ∧ (b ≠ 240 ∨ 144 ≤ b1) ∧ (b ≠ 244 ∨ b1 < 144) then
        some ((b - 240) * 262144 + (b1 - 128) * 4096 + (b2 - 128) * 64 + (b3 - 128),
          rest3)
      else none
    | _ => none
  else none

/-- Fuelled UTF-8 decoding loop; the fuel only bounds the number of
characters produced and is always sufficient when it is at least the
length of the input (each character consumes at least one byte). -/
def utf8Loop : Nat → List Nat → Option (List Char)
  | _, [] => some []
  | 0, _ :: _ => none
  | fuel + 1, b :: rest =>
    match utf8Step b rest with
    | none => none
    | some (n, rest1) => (utf8Loop fuel rest1).map (fun cs => Char.ofNat n :: cs)

/-- Model of String::from_utf8 from the reader tasks: strict UTF-8
decoding of a byte list into characters. -/
def utf8Decode (l : List Nat) : Option (List Char) :=
  utf8Loop l.length l

/-- Model of Rust char::is_whitespace: the Unicode White_Space
property. -/
def rustIsWhitespace (c : Char) : Bool :=
  decide ((9 ≤ c.toNat ∧ c.toNat ≤ 13) ∨ c.toNat = 32 ∨ c.toNat = 133
    ∨ c.toNat = 160 ∨ c.toNat = 5760 ∨ (8192 ≤ c.toNat ∧ c.toNat ≤ 8202)
    ∨ c.toNat = 8232 ∨ c.toNat = 8233 ∨ c.toNat = 8239 ∨ c.toNat = 8287
    ∨ c.toNat = 12288)

/-- Model of Rust str::trim, which removes whitespace from BOTH ends of
the string (the reader tasks call line.trim()). -/
def rustTrim (cs : List Char) : List Char :=
  ((cs.dropWhile rustIsWhitespace).reverse.dropWhile rustIsWhitespace).reverse

/-- The per-frame text pipeline of both reader tasks: decode the frame
bytes as UTF-8 (an invalid frame is dropped and the loop continues),
trim the resulting string, and drop it when the trimmed string is
empty.  Returns the line that survives this pipeline, if any. -/
def lineOfFrame (frame : List Nat) : Option (List Char) :=
  match utf8Decode frame with
  | none => none
  | some cs =>
    if rustTrim cs = [] then none else some (rustTrim cs)

/-- JSON values as handled by serde_json in the bridge.  Numbers are
modelled as integers (the protocol only carries integer timestamps). -/
inductive Json where
  | null : Json
  | bool (b : Bool) : Json
  | num (n : Int) : Json
  | str (s : String) : Json
  | arr (elems : List Json) : Json
  | obj (fields : List (String × Json)) : Json

def lbrace : Char := Char.ofNat 123

def rbrace : Char := Char.ofNat 125

def hexDigitChar (n : Nat) : Char :=
  if n < 10 then Char.ofNat (48 + n) else Char.ofNat (87 + n)

/-- serde_json string escaping: double quote, backslash and the control
characters below 0x20 are escaped (with short forms for backspace, tab,
newline, form feed and carriage return); all other characters are
emitted verbatim. -/
def escapeChar (c : Char) : List Char :=
  if c = '"' then ['\\', '"']
  else if c = '\\' then ['\\', '\\']
  else if c.toNat = 8 then ['\\', 'b']
  else if c.toNat = 9 then ['\\', 't']
  else if c.toNat = 10 then ['\\', 'n']
  else if c.toNat = 12 then ['\\', 'f']
  else if c.toNat = 13 then ['\\', 'r']
  else if c.toNat < 32 then
    ['\\', 'u', '0', '0', hexDigitChar (c.toNat / 16), hexDigitChar (c.toNat % 16)]
  else [c]

def printStringBody (s : List Char) : List Char := s.flatMap escapeChar

def printString (s : String) : List Char :=
  '"' :: printStringBody s.data ++ ['"']

mutual

/-- Compact serde_json printing of a JSON value. -/
def printJson : Json → List Char
  | Json.null => ['n', 'u', 'l', 'l']
  | Json.bool true => ['t', 'r', 'u', 'e']
  | Json.bool false => ['f', 'a', 'l', 's', 'e']
  | Json.num n => (toString n).data
  | Json.str s => printString s
  | Json.arr xs => '[' :: printElems xs ++ [']']
  | Json.obj fs => lbrace :: printMembers fs ++ [rbrace]

def printElems : List Json → List Char
  | [] => []
  | [x] => printJson x
  | x :: y :: xs => printJson x ++ ',' :: printElems (y :: xs)

def printMembers : List (String × Json) → List Char
  | [] => []
  | [(k, v)] => printString k ++ ':' :: printJson v
  | (k, v) :: m :: ms => printString k ++ ':' :: printJson v ++ ',' :: printMembers (m :: ms)

end

/-- The outbound request record (struct AgentRequest): id and kind are
required, the three remaining fields are optional and skipped during
serialization when absent (serde skip_serializing_if Option::is_none). -/
structure AgentRequest where
  id : String
  kind : String
  message : Option String
  images : Option String
  conversation_id : Option String
deriving DecidableEq

/-- The key/value pairs serde emits for an AgentRequest: fields in
declaration order, optional fields omitted (not null) when absent. -/
def requestFieldList (r : AgentRequest) : List (String × Json) :=
  [(("id"), Json.str r.id), (("kind"), Json.str r.kind)]
    ++ (match r.message with
        | some m => [(("message"), Json.str m)]
        | none => [])
    ++ (match r.images with
        | some m => [(("images"), Json.str m)]
        | none => [])
    ++ (match r.conversation_id with
        | some m => [(("conversation_id"), Json.str m)]
        | none => [])

/-- serde serialization of AgentRequest to a JSON value. -/
def requestToJson (r : AgentRequest) : Json :=
  Json.obj (requestFieldList r)

/-- serde_json::to_string(request): the single line of text written for
a request (before the terminator byte is appended by send_request). -/
def encodeRequest (r : AgentRequest) : List Char :=
  printJson (requestToJson r)

def jsonWs (c : Char) : Bool :=
  c = ' ' || c = '\t' || c = '\n' || c = '\r'

def skipWs (cs : List Char) : List Char := cs.dropWhile jsonWs

def unhex (c : Char) : Option Nat :=
  if 48 ≤ c.toNat ∧ c.toNat ≤ 57 then some (c.toNat - 48)
  else if 97 ≤ c.toNat ∧ c.toNat ≤ 102 then some (c.toNat - 87)
  else if 65 ≤ c.toNat ∧ c.toNat ≤ 70 then some (c.toNat - 55)
  else none

def parseHex4 : List Char → Option (Nat × List Char)
  | h1 :: h2 :: h3 :: h4 :: rest =>
    match unhex h1, unhex h2, unhex h3, unhex h4 with
    | some a, some b, some c, some d => some (a * 4096 + b * 256 + c * 16 + d, rest)
    | _, _, _, _ => none
  | _ => none

/-- Decode one JSON string escape (the characters following a
backslash), including surrogate pairs for u-escapes. -/
def parseEscape : List Char → Option (Char × List Char)
  | [] => none
  | e :: rest =>
    if e = '"' then some ('"', rest)
    else if e = '\\' then some ('\\', rest)
    else if e = '/' then some ('/', rest)
    else if e = 'b' then some (Char.ofNat 8, rest)
    else if e = 'f' then some (Char.ofNat 12, rest)
    else if e = 'n' then some (Char.ofNat 10, rest)
    else if e = 'r' then some (Char.ofNat 13, rest)
    else if e = 't' then some (Char.ofNat 9, rest)
    else if e = 'u' then
      match parseHex4 rest with
      | none => none
      | some (n, rest1) =>
        if 55296 ≤ n ∧ n ≤ 56319 then
          match rest1 with
          | c1 :: c2 :: rest2 =>
            if c1 = '\\' ∧ c2 = 'u' then
              match parseHex4 rest2 with
              | none => none
              | some (m, rest3) =>
                if 56320 ≤ m ∧ m ≤ 57343 then
                  some (Char.ofNat (65536 + (n - 55296) * 1024 + (m - 56320)), rest3)
                else none
            else none
          | _ => none
        else if 56320 ≤ n ∧ n ≤ 57343 then none
        else some (Char.ofNat n, rest1)
    else none

/-- JSON string body parser (after the opening quote): returns the
decoded characters and the input after the closing quote.  The fuel
only bounds the number of produced characters; any fuel of at least the
input length is sufficient. -/
def parseStringLoop : Nat → List Char → Option (List Char × List Char)
  | _, [] => none
  | 0, _ :: _ => none
  | fuel + 1, c :: rest =>
    if c = '"' then some ([], rest)
    else if c = '\\' then
      match parseEscape rest with
      | none => none
      | some (ch, rest1) => (parseStringLoop fuel rest1).map (fun p => (ch :: p.1, p.2))
    else if c.toNat < 32 then none
    else (parseStringLoop fuel rest).map (fun p => (c :: p.1, p.2))

def isDigitChar (c : Char) : Bool := decide (48 ≤ c.toNat ∧ c.toNat ≤ 57)

def digitsLoop : Nat → List Char → Nat × List Char
  | acc, [] => (acc, [])
  | acc, c :: rest =>
    if isDigitChar c then digitsLoop (acc * 10 + (c.toNat - 48)) rest
    else (acc, c :: rest)

/-- Integer number parser (the protocol only carries integer numbers;
a line containing a non-integer number fails to parse, which merely
reclassifies it as a log line, exactly as a serde type error would). -/
def parseNumber : List Char → Option (Int × List Char)
  | [] => none
  | c :: rest =>
    if c = '-' then
      match rest with
      | d :: _ =>
        if isDigitChar d then
          some (-(Int.ofNat (digitsLoop 0 rest).1), (digitsLoop 0 rest).2)
        else none
      | [] => none
    else if isDigitChar c then
      some (Int.ofNat (digitsLoop 0 (c :: rest)).1, (digitsLoop 0 (c :: rest)).2)
    else none

mutual

/-- Model of serde_json value parsing (strict recursive descent over
the characters of the line).  The fuel bounds the nesting and member
count; the top-level entry point supplies fuel exceeding the input
length, which is always sufficient since every unit of fuel consumes at
least one input character. -/
def parseJsonV : Nat → List Char → Option (Json × List Char)
  | 0, _ => none
  | fuel + 1, cs =>
    match skipWs cs with
    | [] => none
    | c :: rest =>
      if c = 'n' then
        match rest with
        | c1 :: c2 :: c3 :: rest1 =>
          if c1 = 'u' ∧ c2 = 'l' ∧ c3 = 'l' then some (Json.null, rest1) else none
        | _ => none
      else if c = 't' then
        match rest with
        | c1 :: c2 :: c3 :: rest1 =>
          if c1 = 'r' ∧ c2 = 'u' ∧ c3 = 'e' then some (Json.bool true, rest1) else none
        | _ => none
      else if c = 'f' then
        match rest with
        | c1 :: c2 :: c3 :: c4 :: rest1 =>
          if c1 = 'a' ∧ c2 = 'l' ∧ c3 = 's' ∧ c4 = 'e' then
            some (Json.bool false, rest1)
          else none
        | _ => none
      else if c = '"' then
        match parseStringLoop rest.length rest with
        | none => none
        | some (s, rest1) => some (Json.str (String.mk s), rest1)
      else if c = '[' then
        match skipWs rest with
        | [] => none
        | c1 :: rest1 =>
          if c1 = ']' then some (Json.arr [], rest1)
          else
            match parseElems fuel (c1 :: rest1) with
            | none => none
            | some (xs, rest2) => some (Json.arr xs, rest2)
      else if c = lbrace then
        match skipWs rest with
        | [] => none
        | c1 :: rest1 =>
          if c1 = rbrace then some (Json.obj [], rest1)
          else
            match parseMembers fuel (c1 :: rest1) with
            | none => none
            | some (fs, rest2) => some (Json.obj fs, rest2)
      else
        match parseNumber (c :: rest) with
        | none => none
        | some (n, rest1) => some (Json.num n, rest1)

/-- Array elements: one value, then a comma and more elements or the
closing bracket. -/
def parseElems : Nat → List Char → Option (List Json × List Char)
  | 0, _ => none
  | fuel + 1, cs =>
    match parseJsonV fuel cs with
    | none => none
    | some (v, rest) =>
      match skipWs rest with
      | [] => none
      | c :: rest1 =>
        if c = ',' then
          match parseElems fuel rest1 with
          | none => none
          | some (xs, rest2) => some (v :: xs, rest2)
        else if c = ']' then some ([v], rest1)
        else none

/-- Object members: one key/value pair, then a comma and more members
or the closing brace. -/
def parseMembers : Nat → List Char → Option (List (String × Json) × List Char)
  | 0, _ => none
  | fuel + 1, cs =>
    match skipWs cs with
    | [] => none
    | c :: rest =>
      if c = '"' then
        match parseStringLoop rest.length rest with
        | none => none
        | some (k, rest1) =>
          match skipWs rest1 with
          | [] => none
          | c1 :: rest2 =>
            if c1 = ':' then
              match parseJsonV fuel rest2 with
              | none => none
              | some (v, rest3) =>
                match skipWs rest3 with
                | [] => none
                | c2 :: rest4 =>
                  if c2 = ',' then
                    match parseMembers fuel rest4 with
                    | none => none
                    | some (ms, rest5) => some ((String.mk k, v) :: ms, rest5)
                  else if c2 = rbrace then some ([(String.mk k, v)], rest4)
                  else none
            else none
      else none

end

/-- serde_json::from_str at the level of whole lines: parse one JSON
value and require only trailing whitespace after it. -/
def parseJson (cs : List Char) : Option Json :=
  match parseJsonV (cs.length + 1) cs with
  | some (j, rest) => if skipWs rest = [] then some j else none
  | none => none

/-- The inbound response union (enum AgentResponse), internally tagged
by the type field. -/
inductive AgentResponse where
  | Ready (timestamp : Int) : AgentResponse
  | Token (id : String) (token : String) (timestamp : Int) : AgentResponse
  | ToolUse (id : String) (data : Json) (timestamp : Int) : AgentResponse
  | ToolResult (id : String) (data : Json) (timestamp : Int) : AgentResponse
  | Done (id : String) (data : Option Json) (timestamp : Int) : AgentResponse
  | Error (id : String) (error : String) (timestamp : Int) : AgentResponse

def getField (fs : List (String × Json)) (name : String) : Option Json :=
  match fs.find? (fun kv => kv.1 == name) with
  | some kv => some kv.2
  | none => none

/-- serde deserialization of Option of Value: an absent field or an
explicit null gives none. -/
def asOptJson : Option Json → Option (Option Json)
  | none => some none
  | some Json.null => some none
  | some v => some (some v)

/-- serde deserialization of Option of String: absent or null gives
none, a string gives some, anything else is a type error. -/
def asOptString : Option Json → Option (Option String)
  | none => some none
  | some Json.null => some none
  | some (Json.str s) => some (some s)
  | some _ => none

/-- serde deserialization of the internally tagged AgentResponse enum
from a JSON value: the object's type field selects the variant and the
variant fields are read from the same object. -/
def responseFromJson : Json → Option AgentResponse
  | Json.obj fs =>
    (match getField fs ("type") with
     | some (Json.str tag) =>
       if tag = ("ready") then
         match getField fs ("timestamp") with
         | some (Json.num ts) => some (AgentResponse.Ready ts)
         | _ => none
       else if tag = ("token") then
         match getField fs ("id"), getField fs ("token"), getField fs ("timestamp") with
         | some (Json.str i), some (Json.str tok), some (Json.num ts) =>
           some (AgentResponse.Token i tok ts)
         | _, _, _ => none
       else if tag = ("tool_use") then
         match getField fs ("id"), getField fs ("data"), getField fs ("timestamp") with
         | some (Json.str i), some d, some (Json.num ts) =>
           some (AgentResponse.ToolUse i d ts)
         | _, _, _ => none
       else if tag = ("tool_result") then
         match getField fs ("id"), getField fs ("data"), getField fs ("timestamp") with
         | some (Json.str i), some d, some (Json.num ts) =>
           some (AgentResponse.ToolResult i d ts)
         | _, _, _ => none
       else if tag = ("done") then
         match getField fs ("id"), asOptJson (getField fs ("data")),
             getField fs ("timestamp") with
         | some (Json.str i), some d, some (Json.num ts) =>
           some (AgentResponse.Done i d ts)
         | _, _, _ => none
       else if tag = ("error") then
         match getField fs ("id"), getField fs ("error"), getField fs ("timestamp") with
         | some (Json.str i), some (Json.str er), some (Json.num ts) =>
           some (AgentResponse.Error i er ts)
         | _, _, _ => none
       else none
     | _ => none)
  | _ => none

/-- serde_json::from_str::(AgentResponse) applied to an assembled
line. -/
def decodeResponseLine (line : List Char) : Option AgentResponse :=
  match parseJson line with
  | some j => responseFromJson j
  | none => none

/-- The counterpart deserializer for AgentRequest (serde derive
Deserialize on the struct): id and kind are required strings, the three
optional fields may be absent or null. -/
def requestFromJson : Json → Option AgentRequest
  | Json.obj fs =>
    (match getField fs ("id"), getField fs ("kind") with
     | some (Json.str i), some (Json.str k) =>
       match asOptString (getField fs ("message")), asOptString (getField fs ("images")),
           asOptString (getField fs ("conversation_id")) with
       | some m, some im, some cid => some (AgentRequest.mk i k m im cid)
       | _, _, _ => none
     | _, _ => none)
  | _ => none

def decodeRequest (line : List Char) : Option AgentRequest :=
  match parseJson line with
  | some j => requestFromJson j
  | none => none

/-- Events published to the event sink: a decoded protocol response
(emitted on the agent_response channel) or a log event with its source
stream, message and timestamp (emitted on the agent_log channel). -/
inductive AgentEvent where
  | response (r : AgentResponse) : AgentEvent
  | log (source : String) (message : String) (timestamp : Int) : AgentEvent

/-- The per-frame body of the stdout reader loop: UTF-8 decode (invalid
frames are dropped with a diagnostic), trim, drop empty lines, then
classify: a line that parses as an AgentResponse is emitted as such,
any other line is emitted as a log event with source stdout. -/
def processFrameStdout (now : Int) (frame : List Nat) : List AgentEvent :=
  match utf8Decode frame with
  | none => []
  | some cs =>
    if rustTrim cs = [] then []
    else
      match decodeResponseLine (rustTrim cs) with
      | some r => [AgentEvent.response r]
      | none => [AgentEvent.log ("stdout") (String.mk (rustTrim cs)) now]

/-- The per-frame body of the stderr reader loop: UTF-8 decode, trim,
drop empty lines, and emit every surviving line as a log event with
source stderr (never as a response). -/
def processFrameStderr (now : Int) (frame : List Nat) : List AgentEvent :=
  match utf8Decode frame with
  | none => []
  | some cs =>
    if rustTrim cs = [] then []
    else [AgentEvent.log ("stderr") (String.mk (rustTrim cs)) now]

/-- One Ok(n) iteration of the stdout reader loop: append the chunk,
drain and process every complete line, then clear the buffer if it
exceeds MAX_MESSAGE_SIZE.  Returns the new buffer and the events
published during the iteration. -/
def stdoutStep (now : Int) (buf chunk : List Nat) : List Nat × List AgentEvent :=
  let fr := splitFrames (buf ++ chunk)
  (if MAX_MESSAGE_SIZE < fr.2.length then [] else fr.2,
   fr.1.flatMap (processFrameStdout now))

/-- One Ok(n) iteration of the stderr reader loop: append the chunk and
drain and process every complete line.  The stderr task has no buffer
size check. -/
def stderrStep (now : Int) (buf chunk : List Nat) : List Nat × List AgentEvent :=
  let fr := splitFrames (buf ++ chunk)
  (fr.2, fr.1.flatMap (processFrameStderr now))

/-- The frame assembler part of a stdout loop iteration, at the level
of assembled text lines (before protocol classification): new buffer
plus the lines that survive the per-frame pipeline. -/
def assembleStep (buf chunk : List Nat) : List Nat × List (List Char) :=
  let fr := splitFrames (buf ++ chunk)
  (if MAX_MESSAGE_SIZE < fr.2.length then [] else fr.2,
   fr.1.filterMap lineOfFrame)

/-- Run the stdout frame assembler over successive chunks starting from
a given buffer, collecting all assembled lines in order. -/
def runFrom (buf : List Nat) : List (List Nat) → List Nat × List (List Char)
  | [] => (buf, [])
  | c :: cs =>
    let st := assembleStep buf c
    let st2 := runFrom st.1 cs
    (st2.1, st.2 ++ st2.2)

def runAssembler (chunks : List (List Nat)) : List Nat × List (List Char) :=
  runFrom [] chunks

/-- UTF-8 encoding of one character (model of str::as_bytes). -/
def utf8EncodeChar (c : Char) : List Nat :=
  if c.toNat < 128 then [c.toNat]
  else if c.toNat < 2048 then [192 + c.toNat / 64, 128 + c.toNat % 64]
  else if c.toNat < 65536 then
    [224 + c.toNat / 4096, 128 + (c.toNat / 64) % 64, 128 + c.toNat % 64]
  else
    [240 + c.toNat / 262144, 128 + (c.toNat / 4096) % 64, 128 + (c.toNat / 64) % 64,
     128 + c.toNat % 64]

def utf8Encode (cs : List Char) : List Nat := cs.flatMap utf8EncodeChar

inductive IOErrorKind where
  | brokenPipe : IOErrorKind
  | other : IOErrorKind
deriving DecidableEq

/-- A std::io::Error: its ErrorKind (broken pipe or anything else) and
its message. -/
structure IOError where
  kind : IOErrorKind
  msg : String
deriving DecidableEq

/-- The failures send_request can return: the distinct channel-closed
error produced on a broken pipe (anyhow message: Agent process stdin
closed) or a generic write failure wrapping the underlying cause with a
context string. -/
inductive SendError where
  | channelClosed : SendError
  | writeFailure (context : String) (cause : IOError) : SendError
deriving DecidableEq

/-- The error classification performed at each of the three write/flush
steps of send_request: BrokenPipe becomes the channel-closed error, any
other kind is wrapped as a write failure with the step's context. -/
def classifyWriteError (context : String) (e : IOError) : SendError :=
  if e.kind = IOErrorKind.brokenPipe then SendError.channelClosed
  else SendError.writeFailure context e

/-- The behavior of the child's stdin handle, as seen by send_request:
what each write_all call returns (as a function of the bytes written)
and what flush returns. -/
structure StdinPipe where
  writeAll : List Nat → Except IOError Unit
  flush : Except IOError Unit

/-- AgentProcess::send_request: serialize the request, then write the
payload bytes, write the newline terminator and flush, in that order,
stopping at the first failure and classifying it. -/
def send_request (pipe : StdinPipe) (r : AgentRequest) : Except SendError Unit :=
  match pipe.writeAll (utf8Encode (encodeRequest r)) with
  | Except.error e => Except.error (classifyWriteError ("Failed to write to stdin") e)
  | Except.ok _ =>
    match pipe.writeAll [10] with
    | Except.error e => Except.error (classifyWriteError ("Failed to write newline") e)
    | Except.ok _ =>
      match pipe.flush with
      | Except.error e => Except.error (classifyWriteError ("Failed to flush stdin") e)
      | Except.ok _ => Except.ok ()

/-- The spawn_agent command from main.rs: reject when an agent process
is already stored (leaving it untouched), otherwise store the newly
spawned process, or report the spawn failure leaving the state empty.
The stored process is abstract here; spawnResult is the outcome of
AgentProcess::spawn.  Returns the state after the call and the
command's result. -/
def spawn_agent {P : Type} (st : Option P) (spawnResult : Except String P) :
    Option P × Except String Unit :=
  match st with
  | some p => (some p, Except.error ("Agent already running"))
  | none =>
    match spawnResult with
    | Except.ok p => (some p, Except.ok ())
    | Except.error e => (none, Except.error (("Failed to spawn agent: ") ++ e))

/-- Trim that removes only TRAILING whitespace, following the
specification's wording for the frame assembler, for comparison with
the implementation's two-sided rustTrim. -/
def trimTrailing (cs : List Char) : List Char :=
  (cs.reverse.dropWhile rustIsWhitespace).reverse

/-- Program points of one send_request call, as delimited by its await
points: before the lock, holding the lock, after writing the payload,
after writing the terminator, after flushing, and after releasing the
lock at the end of the call. -/
inductive SendPc where
  | start : SendPc
  | locked : SendPc
  | wrotePayload : SendPc
  | wroteNewline : SendPc
  | flushed : SendPc
  | done : SendPc
deriving DecidableEq

/-- Shared state of two concurrent send_request calls (tasks false and
true): the holder of the stdin mutex, each task's program point, and
the bytes written to the child's stdin so far. -/
structure WireState where
  lock : Option Bool
  pc : Bool → SendPc
  wire : List Nat

/-- Interleaving semantics of two concurrent send_request calls with
payloads p false and p true: acquiring the tokio mutex blocks while it
is held, and each write appends to the wire while the lock is held.
The guard is released when the call returns. -/
inductive SendStep (p : Bool → List Nat) : WireState → WireState → Prop where
  | acquire (i : Bool) (s : WireState) (h : s.pc i = SendPc.start) (hl : s.lock = none) :
      SendStep p s ⟨some i, Function.update s.pc i SendPc.locked, s.wire⟩
  | writePayload (i : Bool) (s : WireState) (h : s.pc i = SendPc.locked) :
      SendStep p s ⟨s.lock, Function.update s.pc i SendPc.wrotePayload, s.wire ++ p i⟩
  | writeNewline (i : Bool) (s : WireState) (h : s.pc i = SendPc.wrotePayload) :
      SendStep p s ⟨s.lock, Function.update s.pc i SendPc.wroteNewline, s.wire ++ [10]⟩
  | flushPipe (i : Bool) (s : WireState) (h : s.pc i = SendPc.wroteNewline) :
      SendStep p s ⟨s.lock, Function.update s.pc i SendPc.flushed, s.wire⟩
  | release (i : Bool) (s : WireState) (h : s.pc i = SendPc.flushed) :
      SendStep p s ⟨none, Function.update s.pc i SendPc.done, s.wire⟩

/-- Initial state: lock free, both calls at their entry, nothing
written. -/
def initWire : WireState := WireState.mk none (fun _ => SendPc.start) []

/-- States reachable by interleaving the two send_request calls. -/
inductive SendReach (p : Bool → List Nat) : WireState → Prop where
  | init : SendReach p initWire
  | step (s t : WireState) : SendReach p s → SendStep p s t → SendReach p t

/-- Bytes task i has contributed to the wire when it is at program
point st. -/
def contrib (p : Bool → List Nat) (st : SendPc) (i : Bool) : List Nat :=
  match st with
  | SendPc.start => []
  | SendPc.locked => []
  | SendPc.wrotePayload => p i
  | SendPc.wroteNewline => p i ++ [10]
  | SendPc.flushed => p i ++ [10]
  | SendPc.done => p i ++ [10]

/-- Whether a program point lies inside the critical section guarded by
the stdin mutex. -/
def inCrit (st : SendPc) : Bool :=
  match st with
  | SendPc.start => false
  | SendPc.done => false
  | _ => true

/-- Inductive invariant of the two-sender system: the mutex is held by
any task inside the critical section, and the wire is one task's
contribution followed by the other's, the second being nonempty only
once the first task's call has completed. -/
def WireInv (p : Bool → List Nat) (s : WireState) : Prop :=
  (∀ i : Bool, inCrit (s.pc i) = true → s.lock = some i) ∧
  (∃ a : Bool,
    s.wire = contrib p (s.pc a) a ++ contrib p (s.pc (!a)) (!a)
      ∧ (contrib p (s.pc (!a)) (!a) = [] ∨ s.pc a = SendPc.done))

/-- The full line a request puts on the wire: its serialization
followed by the newline terminator. -/
def reqLine (r : AgentRequest) : List Nat :=
  utf8Encode (encodeRequest r) ++ [10]

/-- Payload assignment for two concurrent send_request calls carrying
requests r0 (task false) and r1 (task true). -/
def reqPayloads (r0 r1 : AgentRequest) (i : Bool) : List Nat :=
  if i then utf8Encode (encodeRequest r1) else utf8Encode (encodeRequest r0)

/-- Concrete request exercising the two-sender model: the shape built
by the send_message command. -/
def witnessReq0 : AgentRequest :=
  AgentRequest.mk ("a") ("user_message") (some ("hi")) none none

/-- Concrete request exercising the two-sender model: the shape built
by the send_interrupt command. -/
def witnessReq1 : AgentRequest :=
  AgentRequest.mk ("b") ("interrupt") none none none

-- ## Lemmas and theorems

theorem splitFramesAux_nil (acc : List Nat) :
    splitFramesAux acc [] = ([], acc.reverse) := rfl

theorem splitFramesAux_cons_nl (acc rest : List Nat) :
    splitFramesAux acc (10 :: rest)
      = ((acc.reverse ++ [10]) :: (splitFramesAux [] rest).1,
         (splitFramesAux [] rest).2) := by
  simp [splitFramesAux]

theorem splitFramesAux_cons_other (acc rest : List Nat) (b : Nat) (h : b ≠ 10) :
    splitFramesAux acc (b :: rest) = splitFramesAux (b :: acc) rest := by
  simp [splitFramesAux, h]

theorem splitFramesAux_no_nl (l : List Nat) :
    ∀ acc : List Nat, (10 : Nat) ∉ l →
      splitFramesAux acc l = ([], acc.reverse ++ l) := by
  induction l with
  | nil => intro acc _; simp [splitFramesAux]
  | cons b rest ih =>
    intro acc h
    have hb : b ≠ 10 := fun hb => h (by simp [hb])
    have hrest : (10 : Nat) ∉ rest := fun hr => h (by simp [hr])
    rw [splitFramesAux_cons_other _ _ _ hb, ih _ hrest]
    simp

theorem splitFramesAux_to_nl (l : List Nat) :
    ∀ (acc r : List Nat), (10 : Nat) ∉ l →
      splitFramesAux acc (l ++ 10 :: r)
        = ((acc.reverse ++ l ++ [10]) :: (splitFramesAux [] r).1,
           (splitFramesAux [] r).2) := by
  induction l with
  | nil =>
    intro acc r _
    rw [List.nil_append, splitFramesAux_cons_nl]
    simp
  | cons b rest ih =>
    intro acc r h
    have hb : b ≠ 10 := fun hb => h (by simp [hb])
    have hrest : (10 : Nat) ∉ rest := fun hr => h (by simp [hr])
    rw [List.cons_append, splitFramesAux_cons_other _ _ _ hb, ih _ _ hrest]
    simp

theorem splitFramesAux_append (x : List Nat) :
    ∀ (acc y : List Nat),
      splitFramesAux acc (x ++ y)
        = ((splitFramesAux acc x).1
             ++ (splitFramesAux (splitFramesAux acc x).2.reverse y).1,
           (splitFramesAux (splitFramesAux acc x).2.reverse y).2) := by
  induction x with
  | nil => intro acc y; simp [splitFramesAux]
  | cons b rest ih =>
    intro acc y
    by_cases hb : b = 10
    · subst hb
      rw [List.cons_append, splitFramesAux_cons_nl, splitFramesAux_cons_nl,
        ih [] y]
      simp
    · rw [List.cons_append, splitFramesAux_cons_other _ _ _ hb,
        splitFramesAux_cons_other _ _ _ hb]
      exact ih (b :: acc) y

theorem splitFramesAux_rest_no_nl (l : List Nat) :
    ∀ acc : List Nat, (10 : Nat) ∉ acc → (10 : Nat) ∉ (splitFramesAux acc l).2 := by
  induction l with
  | nil => intro acc h; simpa [splitFramesAux] using h
  | cons b rest ih =>
    intro acc h
    by_cases hb : b = 10
    · subst hb
      rw [splitFramesAux_cons_nl]
      exact ih [] (by simp)
    · rw [splitFramesAux_cons_other _ _ _ hb]
      exact ih (b :: acc) (by simp [h, Ne.symm hb])

theorem splitFramesAux_join (l : List Nat) :
    ∀ acc : List Nat,
      ((splitFramesAux acc l).1).flatten ++ (splitFramesAux acc l).2
        = acc.reverse ++ l := by
  induction l with
  | nil => intro acc; simp [splitFramesAux]
  | cons b rest ih =>
    intro acc
    by_cases hb : b = 10
    · subst hb
      rw [splitFramesAux_cons_nl]
      simp only [List.flatten_cons, List.append_assoc, ih []]
      simp
    · rw [splitFramesAux_cons_other _ _ _ hb, ih (b :: acc)]
      simp

theorem splitFramesAux_frames (l : List Nat) :
    ∀ acc : List Nat, (10 : Nat) ∉ acc →
      ∀ f ∈ (splitFramesAux acc l).1, ∃ p, f = p ++ [10] ∧ (10 : Nat) ∉ p := by
  induction l with
  | nil => intro acc _ f hf; simp [splitFramesAux] at hf
  | cons b rest ih =>
    intro acc h f hf
    by_cases hb : b = 10
    · subst hb
      rw [splitFramesAux_cons_nl] at hf
      rcases List.mem_cons.mp hf with hf1 | hf1
      · refine ⟨acc.reverse, hf1, ?_⟩
        simpa using h
      · exact ih [] (by simp) f hf1
    · rw [splitFramesAux_cons_other _ _ _ hb] at hf
      exact ih (b :: acc) (by simp [h, Ne.symm hb]) f hf

theorem splitFrames_no_nl (l : List Nat) (h : (10 : Nat) ∉ l) :
    splitFrames l = ([], l) := by
  simpa using splitFramesAux_no_nl l [] h

theorem splitFrames_rest_no_nl (l : List Nat) : (10 : Nat) ∉ (splitFrames l).2 :=
  splitFramesAux_rest_no_nl l [] (by simp)

theorem splitFrames_join (l : List Nat) :
    ((splitFrames l).1).flatten ++ (splitFrames l).2 = l := by
  simpa using splitFramesAux_join l []

theorem splitFrames_frames (l : List Nat) :
    ∀ f ∈ (splitFrames l).1, ∃ p, f = p ++ [10] ∧ (10 : Nat) ∉ p :=
  splitFramesAux_frames l [] (by simp)

theorem splitFramesAux_of_no_nl_acc (p y : List Nat) (h : (10 : Nat) ∉ p) :
    splitFramesAux p.reverse y = splitFrames (p ++ y) := by
  have h3 := splitFramesAux_append p [] y
  rw [splitFramesAux_no_nl p [] h] at h3
  simp only [List.reverse_nil, List.nil_append] at h3
  unfold splitFrames
  rw [h3]

theorem splitFrames_append (x y : List Nat) :
    splitFrames (x ++ y)
      = ((splitFrames x).1 ++ (splitFrames ((splitFrames x).2 ++ y)).1,
         (splitFrames ((splitFrames x).2 ++ y)).2) := by
  have h3 := splitFramesAux_append x [] y
  have hrest : (10 : Nat) ∉ (splitFrames x).2 := splitFrames_rest_no_nl x
  unfold splitFrames at *
  rw [h3, splitFramesAux_of_no_nl_acc _ _ hrest]
  rfl

theorem utf8Step_ascii (b : Nat) (rest : List Nat) (h : b < 128) :
    utf8Step b rest = some (b, rest) := by
  unfold utf8Step
  rw [if_pos h]

theorem utf8Decode_ascii_cons (b : Nat) (rest : List Nat) (h : b < 128) :
    utf8Decode (b :: rest) = (utf8Decode rest).map (fun cs => Char.ofNat b :: cs) := by
  unfold utf8Decode
  rw [List.length_cons, utf8Loop, utf8Step_ascii b rest h]

theorem mem_replicate_97 (n : Nat) : (10 : Nat) ∉ List.replicate n 97 := by
  simp [List.mem_replicate]

/-- Claim C1 (amended): for the OUTPUT-stream pump, after a chunk is
appended and every complete line drained, a buffer longer than 10 MiB
is cleared to length zero (so the buffer never exceeds the ceiling once
chunk processing completes), the discarded bytes contain no line
terminator, and the events of the iteration still cover every complete
line.  The error-stream pump performs no such ceiling check (see the
counterexample). -/
theorem stdout_buffer_ceiling (now : Int) (buf chunk : List Nat) :
    (stdoutStep now buf chunk).1.length ≤ MAX_MESSAGE_SIZE ∧
    (MAX_MESSAGE_SIZE < (splitFrames (buf ++ chunk)).2.length →
      (stdoutStep now buf chunk).1 = [] ∧
      (10 : Nat) ∉ (splitFrames (buf ++ chunk)).2 ∧
      (stdoutStep now buf chunk).2
        = ((splitFrames (buf ++ chunk)).1).flatMap (processFrameStdout now)) := by
  constructor
  · by_cases h : MAX_MESSAGE_SIZE < (splitFrames (buf ++ chunk)).2.length
    · simp [stdoutStep, h]
    · simp only [stdoutStep, if_neg h]
      omega
  · intro h
    exact ⟨by simp [stdoutStep, h], splitFrames_rest_no_nl _, by simp [stdoutStep]⟩

/-- Claim C1 witness: feeding 10 MiB + 1 unterminated bytes to the
stdout pump clears the buffer to length zero. -/
theorem stdout_buffer_ceiling_witness :
    (stdoutStep 0 [] (List.replicate (MAX_MESSAGE_SIZE + 1) 97)).1 = [] ∧
    (stdoutStep 0 [] (List.replicate (MAX_MESSAGE_SIZE + 1) 97)).1.length
      ≤ MAX_MESSAGE_SIZE := by
  have hsf : splitFrames ([] ++ List.replicate (MAX_MESSAGE_SIZE + 1) 97)
      = ([], List.replicate (MAX_MESSAGE_SIZE + 1) 97) := by
    rw [List.nil_append]
    exact splitFrames_no_nl _ (mem_replicate_97 _)
  have hlt : MAX_MESSAGE_SIZE
      < (splitFrames ([] ++ List.replicate (MAX_MESSAGE_SIZE + 1) 97)).2.length := by
    rw [hsf]
    simp
  have hmain := stdout_buffer_ceiling 0 [] (List.replicate (MAX_MESSAGE_SIZE + 1) 97)
  exact ⟨(hmain.2 hlt).1, hmain.1⟩

/-- Claim C1 counterexample: the claim as stated also covers the
error-stream pump, but the stderr reader task has no buffer size check:
after receiving 10 MiB + 1 unterminated bytes its buffer still exceeds
the ceiling instead of being cleared. -/
theorem stderr_no_ceiling_cex :
    MAX_MESSAGE_SIZE
      < (stderrStep 0 [] (List.replicate (MAX_MESSAGE_SIZE + 1) 97)).1.length := by
  have hsf : splitFrames ([] ++ List.replicate (MAX_MESSAGE_SIZE + 1) 97)
      = ([], List.replicate (MAX_MESSAGE_SIZE + 1) 97) := by
    rw [List.nil_append]
    exact splitFrames_no_nl _ (mem_replicate_97 _)
  simp only [stderrStep, hsf]
  simp

/-- Claim C10: the stdout overflow clear can only discard bytes that
contain no line terminator: the published events of an iteration always
cover every complete frame of the data (extraction runs before the
ceiling check), the complete frames together with the leftover
partition the data, the leftover (the only bytes the clear can touch)
contains no terminator, and every extracted frame ends with the
terminator. -/
theorem stdout_terminated_lines_never_discarded (now : Int) (buf chunk : List Nat) :
    (stdoutStep now buf chunk).2
      = ((splitFrames (buf ++ chunk)).1).flatMap (processFrameStdout now) ∧
    ((splitFrames (buf ++ chunk)).1).flatten ++ (splitFrames (buf ++ chunk)).2
      = buf ++ chunk ∧
    (10 : Nat) ∉ (splitFrames (buf ++ chunk)).2 ∧
    (∀ f ∈ (splitFrames (buf ++ chunk)).1, ∃ pr, f = pr ++ [10] ∧ (10 : Nat) ∉ pr) :=
  ⟨by simp [stdoutStep], splitFrames_join _, splitFrames_rest_no_nl _,
    splitFrames_frames _⟩

/-- Claim C10 witness: on buffer 'h' plus chunk newline-then-97, the
frame h-newline is extracted and the trailing 97 is the only leftover. -/
theorem stdout_terminated_lines_never_discarded_witness :
    ((splitFrames ([104] ++ [10, 97])).1).flatten ++ (splitFrames ([104] ++ [10, 97])).2
      = [104] ++ [10, 97] ∧
    (∃ pr, [104, 10] = pr ++ [10] ∧ (10 : Nat) ∉ pr) := by
  have hmain := stdout_terminated_lines_never_discarded 0 [104] [10, 97]
  exact ⟨hmain.2.1, hmain.2.2.2 [104, 10] (by decide)⟩

/-- Claim C5 (amended): for every terminator found, the bytes up to and
including it are removed from the buffer (frames plus leftover
partition the input, each frame ends with the terminator, the leftover
has none), each frame is decoded as text and trimmed — at BOTH ends,
leading as well as trailing whitespace, since the code calls
str::trim — and the line is yielded unless the trimmed result is empty
(or the frame is not valid text), in which case it yields nothing. -/
theorem frame_extraction_and_trim (bs : List Nat) :
    (((splitFrames bs).1).flatten ++ (splitFrames bs).2 = bs) ∧
    (∀ f ∈ (splitFrames bs).1, ∃ pr, f = pr ++ [10] ∧ (10 : Nat) ∉ pr) ∧
    ((10 : Nat) ∉ (splitFrames bs).2) ∧
    (∀ f cs, utf8Decode f = some cs →
        lineOfFrame f = if rustTrim cs = [] then none else some (rustTrim cs)) ∧
    (∀ f, utf8Decode f = none → lineOfFrame f = none) := by
  refine ⟨splitFrames_join _, splitFrames_frames _, splitFrames_rest_no_nl _, ?_, ?_⟩
  · intro f cs h
    simp [lineOfFrame, h]
  · intro f h
    simp [lineOfFrame, h]

/-- Claim C5 witness: the frame space-x-newline decodes to the text
space-x-newline, and the yielded line is x (trimmed at both ends). -/
theorem frame_extraction_and_trim_witness :
    (lineOfFrame [32, 120, 10] = if rustTrim [' ', 'x', '\n'] = [] then none
      else some (rustTrim [' ', 'x', '\n'])) ∧
    (∃ pr, [32, 120, 10] = pr ++ [10] ∧ (10 : Nat) ∉ pr) := by
  have hmain := frame_extraction_and_trim [32, 120, 10]
  refine ⟨hmain.2.2.2.1 [32, 120, 10] [' ', 'x', '\n'] (by decide), ?_⟩
  exact hmain.2.1 [32, 120, 10] (by decide)

/-- Claim C5 counterexample: the claim says exactly the TRAILING
whitespace is trimmed, but the code also trims leading whitespace: the
frame space-x-newline decodes to space-x-newline, whose
trailing-trimmed form is space-x, yet the pump yields the line x. -/
theorem frame_trim_trailing_cex :
    utf8Decode [32, 120, 10] = some [' ', 'x', '\n'] ∧
    trimTrailing [' ', 'x', '\n'] = [' ', 'x'] ∧
    lineOfFrame [32, 120, 10] = some ['x'] ∧
    (['x'] : List Char) ≠ [' ', 'x'] := by
  refine ⟨by decide, by decide, by decide, by decide⟩

/-- Claim C4: for every line assembled by the stdout pump, a line that
decodes as an AgentResponse is published as exactly that response, and
a line that does not decode is published as one log event with source
stdout and the line as its message; on the stderr pump every assembled
line is published as one log event with source stderr, whether or not
it would decode as a response. -/
theorem line_classification (now : Int) (frame : List Nat) (line : List Char)
    (h : lineOfFrame frame = some line) :
    (∀ resp, decodeResponseLine line = some resp →
        processFrameStdout now frame = [AgentEvent.response resp]) ∧
    (decodeResponseLine line = none →
        processFrameStdout now frame = [AgentEvent.log ("stdout") (String.mk line) now]) ∧
    processFrameStderr now frame = [AgentEvent.log ("stderr") (String.mk line) now] := by
  cases hu : utf8Decode frame with
  | none => simp [lineOfFrame, hu] at h
  | some cs =>
    simp only [lineOfFrame, hu] at h
    by_cases ht : rustTrim cs = []
    · rw [if_pos ht] at h
      exact absurd h (by simp)
    · rw [if_neg ht] at h
      have hl : rustTrim cs = line := by
        injection h
      rw [hl] at ht
      refine ⟨?_, ?_, ?_⟩
      · intro resp hresp
        simp [processFrameStdout, hu, ht, hl, hresp]
      · intro hresp
        simp [processFrameStdout, hu, ht, hl, hresp]
      · simp [processFrameStderr, hu, ht, hl]

/-- Claim C4 witness: the line not-json-at-all yields on stdout one log
event with source stdout and the line as message, and on stderr one log
event with source stderr; a well-formed ready line yields its response
event. -/
theorem line_classification_witness :
    processFrameStdout 7 [110, 111, 116, 32, 106, 115, 111, 110, 32, 97, 116, 32, 97, 108, 108, 10]
      = [AgentEvent.log ("stdout") (String.mk ("not json at all").data) 7] ∧
    processFrameStderr 7 [110, 111, 116, 32, 106, 115, 111, 110, 32, 97, 116, 32, 97, 108, 108, 10]
      = [AgentEvent.log ("stderr") (String.mk ("not json at all").data) 7] := by
  have hmain := line_classification 7
    [110, 111, 116, 32, 106, 115, 111, 110, 32, 97, 116, 32, 97, 108, 108, 10]
    ("not json at all").data (by decide)
  exact ⟨hmain.2.1 rfl, hmain.2.2⟩

/-- Claim C6: every line that survives the per-frame pipeline (decoded
and nonempty after trimming) produces exactly one published event on
the pump that assembled it — never zero and never more than one. -/
theorem one_event_per_line (now : Int) (frame : List Nat) (line : List Char)
    (h : lineOfFrame frame = some line) :
    (processFrameStdout now frame).length = 1 ∧
    (processFrameStderr now frame).length = 1 := by
  cases hu : utf8Decode frame with
  | none => simp [lineOfFrame, hu] at h
  | some cs =>
    simp only [lineOfFrame, hu] at h
    by_cases ht : rustTrim cs = []
    · rw [if_pos ht] at h
      exact absurd h (by simp)
    · constructor
      · simp only [processFrameStdout, hu, if_neg ht]
        cases decodeResponseLine (rustTrim cs) <;> simp
      · simp only [processFrameStderr, hu, if_neg ht]
        simp

/-- Claim C6 witness: the concrete line hi produces exactly one event
on each pump. -/
theorem one_event_per_line_witness :
    (processFrameStdout 3 [104, 105, 10]).length = 1 ∧
    (processFrameStderr 3 [104, 105, 10]).length = 1 :=
  one_event_per_line 3 [104, 105, 10] ['h', 'i'] (by decide)

/-- Claim C3: send_request succeeds exactly when writing the payload,
writing the terminator and flushing all succeed; the first failing step
determines the error: a broken-pipe failure at any of the three steps
yields the distinct channel-closed error, and any other I/O failure
yields a write failure carrying that step's context and the underlying
cause.  With a severed pipe every send, including an immediately
repeated one, returns the same channel-closed error. -/
theorem send_request_spec (pipe : StdinPipe) (r r2 : AgentRequest) :
    (send_request pipe r = Except.ok () ↔
      (pipe.writeAll (utf8Encode (encodeRequest r)) = Except.ok () ∧
       pipe.writeAll [10] = Except.ok () ∧ pipe.flush = Except.ok ())) ∧
    (∀ e : IOError, e.kind = IOErrorKind.brokenPipe →
      (pipe.writeAll (utf8Encode (encodeRequest r)) = Except.error e ∨
        (pipe.writeAll (utf8Encode (encodeRequest r)) = Except.ok () ∧
          pipe.writeAll [10] = Except.error e) ∨
        (pipe.writeAll (utf8Encode (encodeRequest r)) = Except.ok () ∧
          pipe.writeAll [10] = Except.ok () ∧ pipe.flush = Except.error e)) →
      send_request pipe r = Except.error SendError.channelClosed) ∧
    (∀ e : IOError, e.kind ≠ IOErrorKind.brokenPipe →
      pipe.writeAll (utf8Encode (encodeRequest r)) = Except.error e →
      send_request pipe r
        = Except.error (SendError.writeFailure ("Failed to write to stdin") e)) ∧
    (∀ e : IOError, e.kind ≠ IOErrorKind.brokenPipe →
      pipe.writeAll (utf8Encode (encodeRequest r)) = Except.ok () →
      pipe.writeAll [10] = Except.error e →
      send_request pipe r
        = Except.error (SendError.writeFailure ("Failed to write newline") e)) ∧
    (∀ e : IOError, e.kind ≠ IOErrorKind.brokenPipe →
      pipe.writeAll (utf8Encode (encodeRequest r)) = Except.ok () →
      pipe.writeAll [10] = Except.ok () → pipe.flush = Except.error e →
      send_request pipe r
        = Except.error (SendError.writeFailure ("Failed to flush stdin") e)) ∧
    ((∀ bs, ∃ e : IOError, pipe.writeAll bs = Except.error e
        ∧ e.kind = IOErrorKind.brokenPipe) →
      send_request pipe r = Except.error SendError.channelClosed ∧
      send_request pipe r2 = Except.error SendError.channelClosed) := by
  refine ⟨?_, ?_, ?_, ?_, ?_, ?_⟩
  · constructor
    · intro hok
      unfold send_request at hok
      cases hw1 : pipe.writeAll (utf8Encode (encodeRequest r)) with
      | error e => rw [hw1] at hok; exact absurd hok (by simp)
      | ok u =>
        cases u
        rw [hw1] at hok
        cases hw2 : pipe.writeAll [10] with
        | error e => rw [hw2] at hok; exact absurd hok (by simp)
        | ok u2 =>
          cases u2
          rw [hw2] at hok
          cases hw3 : pipe.flush with
          | error e => rw [hw3] at hok; exact absurd hok (by simp)
          | ok u3 =>
            cases u3
            exact ⟨rfl, rfl, rfl⟩
    · rintro ⟨h1, h2, h3⟩
      unfold send_request
      rw [h1, h2, h3]
  · rintro e hbp (h1 | ⟨h1, h2⟩ | ⟨h1, h2, h3⟩)
    · unfold send_request
      rw [h1]
      simp [classifyWriteError, hbp]
    · unfold send_request
      rw [h1, h2]
      simp [classifyWriteError, hbp]
    · unfold send_request
      rw [h1, h2, h3]
      simp [classifyWriteError, hbp]
  · intro e hnbp h1
    unfold send_request
    rw [h1]
    simp [classifyWriteError, hnbp]
  · intro e hnbp h1 h2
    unfold send_request
    rw [h1, h2]
    simp [classifyWriteError, hnbp]
  · intro e hnbp h1 h2 h3
    unfold send_request
    rw [h1, h2, h3]
    simp [classifyWriteError, hnbp]
  · intro hsev
    obtain ⟨e1, he1, hk1⟩ := hsev (utf8Encode (encodeRequest r))
    obtain ⟨e2, he2, hk2⟩ := hsev (utf8Encode (encodeRequest r2))
    constructor
    · unfold send_request
      rw [he1]
      simp [classifyWriteError, hk1]
    · unfold send_request
      rw [he2]
      simp [classifyWriteError, hk2]

/-- Claim C3 witness: with a healthy pipe the send succeeds; with a
severed pipe both a first and a second send return the channel-closed
error; with a different I/O fault the send returns a write failure
carrying the cause. -/
theorem send_request_spec_witness :
    send_request (StdinPipe.mk (fun _ => Except.ok ()) (Except.ok ()))
        (AgentRequest.mk ("x") ("user_message") (some ("hi")) none none)
      = Except.ok () ∧
    send_request
        (StdinPipe.mk (fun _ => Except.error (IOError.mk IOErrorKind.brokenPipe ("broken pipe")))
          (Except.ok ()))
        (AgentRequest.mk ("x") ("user_message") (some ("hi")) none none)
      = Except.error SendError.channelClosed ∧
    send_request
        (StdinPipe.mk (fun _ => Except.error (IOError.mk IOErrorKind.brokenPipe ("broken pipe")))
          (Except.ok ()))
        (AgentRequest.mk ("y") ("interrupt") none none none)
      = Except.error SendError.channelClosed ∧
    send_request
        (StdinPipe.mk (fun _ => Except.error (IOError.mk IOErrorKind.other ("disk full")))
          (Except.ok ()))
        (AgentRequest.mk ("x") ("user_message") (some ("hi")) none none)
      = Except.error (SendError.writeFailure ("Failed to write to stdin")
          (IOError.mk IOErrorKind.other ("disk full"))) := by
  refine ⟨?_, ?_, ?_, ?_⟩
  · exact (send_request_spec (StdinPipe.mk (fun _ => Except.ok ()) (Except.ok ()))
      (AgentRequest.mk ("x") ("user_message") (some ("hi")) none none)
      (AgentRequest.mk ("x") ("user_message") (some ("hi")) none none)).1.mpr
      ⟨rfl, rfl, rfl⟩
  · exact ((send_request_spec
      (StdinPipe.mk (fun _ => Except.error (IOError.mk IOErrorKind.brokenPipe ("broken pipe")))
        (Except.ok ()))
      (AgentRequest.mk ("x") ("user_message") (some ("hi")) none none)
      (AgentRequest.mk ("y") ("interrupt") none none none)).2.2.2.2.2
      (fun bs => ⟨IOError.mk IOErrorKind.brokenPipe ("broken pipe"), rfl, rfl⟩)).1
  · exact ((send_request_spec
      (StdinPipe.mk (fun _ => Except.error (IOError.mk IOErrorKind.brokenPipe ("broken pipe")))
        (Except.ok ()))
      (AgentRequest.mk ("x") ("user_message") (some ("hi")) none none)
      (AgentRequest.mk ("y") ("interrupt") none none none)).2.2.2.2.2
      (fun bs => ⟨IOError.mk IOErrorKind.brokenPipe ("broken pipe"), rfl, rfl⟩)).2
  · exact (send_request_spec
      (StdinPipe.mk (fun _ => Except.error (IOError.mk IOErrorKind.other ("disk full")))
        (Except.ok ()))
      (AgentRequest.mk ("x") ("user_message") (some ("hi")) none none)
      (AgentRequest.mk ("x") ("user_message") (some ("hi")) none none)).2.2.1
      (IOError.mk IOErrorKind.other ("disk full")) (by decide) rfl

/-- Claim C7: spawn_agent rejects when a process is already stored,
leaving the stored process unchanged; when no process is stored and the
spawn fails, no partial state is retained (the state stays empty); when
the spawn succeeds the new process is stored. -/
theorem spawn_agent_spec {P : Type} (st : Option P) (res : Except String P) :
    (∀ p : P, st = some p →
      spawn_agent st res = (st, Except.error ("Agent already running"))) ∧
    (∀ e : String, st = none → res = Except.error e →
      spawn_agent st res = (none, Except.error (("Failed to spawn agent: ") ++ e))) ∧
    (∀ p : P, st = none → res = Except.ok p →
      spawn_agent st res = (some p, Except.ok ())) := by
  refine ⟨?_, ?_, ?_⟩
  · intro p hp
    subst hp
    rfl
  · intro e hst hres
    subst hst
    subst hres
    rfl
  · intro p hst hres
    subst hst
    subst hres
    rfl

/-- Claim C7 witness: with a process stored, spawn_agent rejects and
the state is unchanged; with no process stored and a failing spawn, the
state stays empty. -/
theorem spawn_agent_spec_witness :
    spawn_agent (some 5) (Except.error ("no exe") : Except String Nat)
      = (some 5, Except.error ("Agent already running")) ∧
    spawn_agent (none : Option Nat) (Except.error ("no exe"))
      = (none, Except.error (("Failed to spawn agent: ") ++ ("no exe"))) :=
  ⟨(spawn_agent_spec (some 5) (Except.error ("no exe"))).1 5 rfl,
   (spawn_agent_spec (none : Option Nat) (Except.error ("no exe"))).2.1 ("no exe") rfl rfl⟩

theorem residual_bound (x y : List Nat)
    (hterm : (splitFrames (x ++ y)).2 = [])
    (hsize : ∀ f ∈ (splitFrames (x ++ y)).1, f.length ≤ MAX_MESSAGE_SIZE + 1) :
    (splitFrames x).2.length ≤ MAX_MESSAGE_SIZE := by
  set r := (splitFrames x).2 with hrdef
  have hnr : (10 : Nat) ∉ r := splitFrames_rest_no_nl x
  have happ := splitFrames_append x y
  cases hre : r with
  | nil => simp [hre]
  | cons rb rtl =>
    rw [← hre]
    have hres2 : (splitFrames (r ++ y)).2 = [] := by
      rw [happ] at hterm
      exact hterm
    have hjoin := splitFrames_join (r ++ y)
    rw [hres2, List.append_nil] at hjoin
    cases hfr : (splitFrames (r ++ y)).1 with
    | nil =>
      rw [hfr] at hjoin
      simp at hjoin
      rw [hre] at hjoin
      simp at hjoin
    | cons f0 fs =>
      have hf0mem : f0 ∈ (splitFrames (x ++ y)).1 := by
        rw [happ, hfr]
        simp
      have hf0size := hsize f0 hf0mem
      obtain ⟨p, hp, hnp⟩ := splitFrames_frames (r ++ y) f0 (by rw [hfr]; simp)
      rw [hfr] at hjoin
      rw [List.flatten_cons, hp] at hjoin
      have heq : p ++ (10 :: fs.flatten) = r ++ y := by
        rw [← hjoin]
        simp
      have hrlen : r.length ≤ p.length := by
        rcases List.append_eq_append_iff.mp heq with ⟨a2, ha2, hb2⟩ | ⟨c2, hc2, _⟩
        · cases a2 with
          | nil => rw [ha2]; simp
          | cons ab atl =>
            exfalso
            have hab : ab = 10 := by
              have := hb2
              simp only [List.cons_append] at this
              injection this with h1 _
              exact h1.symm
            apply hnr
            rw [ha2, hab]
            simp
        · rw [hc2]
          simp
      have hplen : p.length + 1 ≤ MAX_MESSAGE_SIZE + 1 := by
        rw [hp] at hf0size
        simpa using hf0size
      omega

theorem runFrom_complete (chunks : List (List Nat)) :
    ∀ r : List Nat, (10 : Nat) ∉ r →
      (splitFrames (r ++ chunks.flatten)).2 = [] →
      (∀ f ∈ (splitFrames (r ++ chunks.flatten)).1, f.length ≤ MAX_MESSAGE_SIZE + 1) →
      runFrom r chunks
        = ([], ((splitFrames (r ++ chunks.flatten)).1).filterMap lineOfFrame) := by
  induction chunks with
  | nil =>
    intro r hr hterm _
    rw [List.flatten_nil, List.append_nil] at hterm ⊢
    rw [splitFrames_no_nl r hr] at hterm ⊢
    subst hterm
    rfl
  | cons c cs ih =>
    intro r hr hterm hsize
    have hassoc : r ++ (c :: cs).flatten = (r ++ c) ++ cs.flatten := by
      rw [List.flatten_cons, List.append_assoc]
    rw [hassoc] at hterm hsize ⊢
    have happ := splitFrames_append (r ++ c) cs.flatten
    set r1 := (splitFrames (r ++ c)).2 with hr1def
    have hnr1 : (10 : Nat) ∉ r1 := splitFrames_rest_no_nl (r ++ c)
    have hterm1 : (splitFrames (r1 ++ cs.flatten)).2 = [] := by
      rw [happ] at hterm
      exact hterm
    have hsize1 : ∀ f ∈ (splitFrames (r1 ++ cs.flatten)).1,
        f.length ≤ MAX_MESSAGE_SIZE + 1 := by
      intro f hf
      apply hsize
      rw [happ]
      exact List.mem_append_right _ hf
    have hbound : r1.length ≤ MAX_MESSAGE_SIZE :=
      residual_bound (r ++ c) cs.flatten hterm hsize
    have hnlt : ¬ MAX_MESSAGE_SIZE < (splitFrames (r ++ c)).2.length := by
      rw [← hr1def]
      omega
    have hstep : assembleStep r c
        = (r1, ((splitFrames (r ++ c)).1).filterMap lineOfFrame) := by
      simp only [assembleStep]
      rw [if_neg hnlt, ← hr1def]
    show (let st := assembleStep r c
          let st2 := runFrom st.1 cs
          (st2.1, st.2 ++ st2.2))
        = ([], ((splitFrames ((r ++ c) ++ cs.flatten)).1).filterMap lineOfFrame)
    rw [hstep]
    simp only []
    rw [ih r1 hnr1 hterm1 hsize1]
    rw [happ]
    simp [List.filterMap_append]

/-- Claim C2 (amended): for any byte sequence consisting of complete
newline-terminated lines, EACH AT MOST 10 MiB LONG excluding its
terminator, and for every way of partitioning that sequence into
successive chunks, feeding the chunks to the frame assembler one at a
time yields exactly the same lines, in the same order, as feeding the
entire sequence as a single chunk.  (Without the size bound the
overflow clear can truncate a line mid-stream under some partitions;
see the counterexample.) -/
theorem framing_determinism (bs : List Nat) (chunks : List (List Nat))
    (hpart : chunks.flatten = bs)
    (hterm : (splitFrames bs).2 = [])
    (hsize : ∀ f ∈ (splitFrames bs).1, f.length ≤ MAX_MESSAGE_SIZE + 1) :
    (runAssembler chunks).2 = (runAssembler [bs]).2 := by
  subst hpart
  unfold runAssembler
  rw [runFrom_complete chunks [] (by simp) (by simpa using hterm) (by simpa using hsize)]
  have hflat : ([chunks.flatten] : List (List Nat)).flatten = chunks.flatten := by simp
  rw [runFrom_complete [chunks.flatten] [] (by simp) (by simpa [hflat] using hterm)
    (by simpa [hflat] using hsize)]
  simp

/-- Claim C2 witness: the two-line sequence hi-newline fed as one chunk
or as two chunks yields the same lines. -/
theorem framing_determinism_witness :
    (runAssembler [[104], [105, 10]]).2 = (runAssembler [[104, 105, 10]]).2 :=
  framing_determinism [104, 105, 10] [[104], [105, 10]] (by decide) (by decide)
    (by decide)

theorem utf8Decode_rep97 (n : Nat) :
    utf8Decode (List.replicate n 97 ++ [10])
      = some (List.replicate n 'a' ++ ['\n']) := by
  induction n with
  | zero => decide
  | succ k ih =>
    have hch : Char.ofNat 97 = 'a' := by decide
    rw [List.replicate_succ, List.cons_append, utf8Decode_ascii_cons 97 _ (by omega), ih]
    simp [hch, List.replicate_succ]

theorem rustTrim_rep_a (n : Nat) :
    rustTrim (List.replicate (n + 1) 'a' ++ ['\n']) = List.replicate (n + 1) 'a' := by
  have hwa : ¬ rustIsWhitespace 'a' = true := by decide
  have hwn : rustIsWhitespace '\n' = true := by decide
  have hd1 : List.dropWhile rustIsWhitespace (List.replicate (n + 1) 'a' ++ ['\n'])
      = List.replicate (n + 1) 'a' ++ ['\n'] := by
    rw [List.replicate_succ, List.cons_append, List.dropWhile_cons_of_neg hwa]
  have hd2 : List.dropWhile rustIsWhitespace (List.replicate (n + 1) 'a')
      = List.replicate (n + 1) 'a' := by
    rw [List.replicate_succ, List.dropWhile_cons_of_neg hwa]
  unfold rustTrim
  rw [hd1, List.reverse_append, List.reverse_replicate]
  simp only [List.reverse_cons, List.reverse_nil, List.nil_append, List.singleton_append]
  rw [List.dropWhile_cons_of_pos hwn, hd2, List.reverse_replicate]

theorem lineOfFrame_eq_of_decode (f : List Nat) (cs : List Char)
    (h : utf8Decode f = some cs) :
    lineOfFrame f = if rustTrim cs = [] then none else some (rustTrim cs) := by
  simp [lineOfFrame, h]

theorem lineOfFrame_rep97 :
    lineOfFrame (List.replicate (MAX_MESSAGE_SIZE + 1) 97 ++ [10])
      = some (List.replicate (MAX_MESSAGE_SIZE + 1) 'a') := by
  have hne : List.replicate (MAX_MESSAGE_SIZE + 1) 'a' ≠ [] := by
    rw [List.replicate_succ]
    exact List.cons_ne_nil _ _
  rw [lineOfFrame_eq_of_decode _ _ (utf8Decode_rep97 (MAX_MESSAGE_SIZE + 1)),
    rustTrim_rep_a, if_neg hne]

/-- Claim C2 counterexample: the claim as stated quantifies over ALL
sequences of complete lines, but a single complete line of 10 MiB + 1
bytes followed by its terminator yields that line when fed as one
chunk, and NO lines when fed as the unterminated 10 MiB + 1 bytes
followed by the terminator chunk: the overflow clear discards the
partial line under the second partition. -/
theorem framing_determinism_cex :
    ([List.replicate (MAX_MESSAGE_SIZE + 1) 97, [10]] : List (List Nat)).flatten
      = List.replicate (MAX_MESSAGE_SIZE + 1) 97 ++ [10] ∧
    (splitFrames (List.replicate (MAX_MESSAGE_SIZE + 1) 97 ++ [10])).2 = [] ∧
    (runAssembler [List.replicate (MAX_MESSAGE_SIZE + 1) 97 ++ [10]]).2
      = [List.replicate (MAX_MESSAGE_SIZE + 1) 'a'] ∧
    (runAssembler [List.replicate (MAX_MESSAGE_SIZE + 1) 97, [10]]).2 = [] ∧
    ([List.replicate (MAX_MESSAGE_SIZE + 1) 'a'] : List (List Char)) ≠ [] := by
  have hsf : splitFrames (List.replicate (MAX_MESSAGE_SIZE + 1) 97 ++ [10])
      = ([List.replicate (MAX_MESSAGE_SIZE + 1) 97 ++ [10]], []) := by
    unfold splitFrames
    have h := splitFramesAux_to_nl (List.replicate (MAX_MESSAGE_SIZE + 1) 97) [] []
      (mem_replicate_97 _)
    simpa using h
  have hstep3 : assembleStep [] (List.replicate (MAX_MESSAGE_SIZE + 1) 97 ++ [10])
      = ([], [List.replicate (MAX_MESSAGE_SIZE + 1) 'a']) := by
    simp only [assembleStep]
    rw [List.nil_append, hsf]
    simp [lineOfFrame_rep97]
  have hstep1 : assembleStep [] (List.replicate (MAX_MESSAGE_SIZE + 1) 97) = ([], []) := by
    simp only [assembleStep]
    rw [List.nil_append, splitFrames_no_nl _ (mem_replicate_97 _)]
    simp
  have hstep2 : assembleStep [] [10] = ([], []) := by decide
  refine ⟨by simp, by rw [hsf], ?_, ?_, by simp⟩
  · simp [runAssembler, runFrom, hstep3]
  · simp [runAssembler, runFrom, hstep1, hstep2]

theorem stringMk_data (s : String) : String.mk s.data = s := rfl

theorem escapeChar_length_pos (c : Char) : 1 ≤ (escapeChar c).length := by
  unfold escapeChar
  split_ifs <;> simp

theorem printStringBody_length (s : List Char) :
    s.length ≤ (printStringBody s).length := by
  induction s with
  | nil => simp [printStringBody]
  | cons c s' ih =>
    simp only [printStringBody, List.flatMap_cons, List.length_append, List.length_cons]
    simp only [printStringBody] at ih
    have := escapeChar_length_pos c
    omega

theorem unhex_hexDigitChar (k : Nat) (h : k < 16) :
    unhex (hexDigitChar k) = some k := by
  interval_cases k <;> decide

theorem skipWs_cons_ne (c : Char) (cs : List Char) (h : jsonWs c = false) :
    skipWs (c :: cs) = c :: cs := by
  simp [skipWs, h]

theorem parseStringLoop_escapeChar (c : Char) (g : Nat) (tail : List Char) :
    parseStringLoop (g + 1) (escapeChar c ++ tail)
      = (parseStringLoop g tail).map (fun p => (c :: p.1, p.2)) := by
  by_cases h1 : c = '"'
  · subst h1
    have he : escapeChar '"' = ['\\', '"'] := by decide
    rw [he]
    simp [parseStringLoop, parseEscape]
  by_cases h2 : c = '\\'
  · subst h2
    have he : escapeChar '\\' = ['\\', '\\'] := by decide
    rw [he]
    simp [parseStringLoop, parseEscape]
  by_cases h3 : c.toNat = 8
  · have hc : Char.ofNat 8 = c := by rw [← h3, Char.ofNat_toNat]
    subst hc
    have he : escapeChar (Char.ofNat 8) = ['\\', 'b'] := by decide
    rw [he]
    simp [parseStringLoop, parseEscape]
  by_cases h4 : c.toNat = 9
  · have hc : Char.ofNat 9 = c := by rw [← h4, Char.ofNat_toNat]
    subst hc
    have he : escapeChar (Char.ofNat 9) = ['\\', 't'] := by decide
    rw [he]
    simp [parseStringLoop, parseEscape]
  by_cases h5 : c.toNat = 10
  · have hc : Char.ofNat 10 = c := by rw [← h5, Char.ofNat_toNat]
    subst hc
    have he : escapeChar (Char.ofNat 10) = ['\\', 'n'] := by decide
    rw [he]
    simp [parseStringLoop, parseEscape]
  by_cases h6 : c.toNat = 12
  · have hc : Char.ofNat 12 = c := by rw [← h6, Char.ofNat_toNat]
    subst hc
    have he : escapeChar (Char.ofNat 12) = ['\\', 'f'] := by decide
    rw [he]
    simp [parseStringLoop, parseEscape]
  by_cases h7 : c.toNat = 13
  · have hc : Char.ofNat 13 = c := by rw [← h7, Char.ofNat_toNat]
    subst hc
    have he : escapeChar (Char.ofNat 13) = ['\\', 'r'] := by decide
    rw [he]
    simp [parseStringLoop, parseEscape]
  by_cases h8 : c.toNat < 32
  · have he : escapeChar c
        = ['\\', 'u', '0', '0', hexDigitChar (c.toNat / 16), hexDigitChar (c.toNat % 16)] := by
      unfold escapeChar
      rw [if_neg h1, if_neg h2, if_neg h3, if_neg h4, if_neg h5, if_neg h6, if_neg h7,
        if_pos h8]
    have hu0 : unhex '0' = some 0 := by decide
    have hux : unhex (hexDigitChar (c.toNat / 16)) = some (c.toNat / 16) :=
      unhex_hexDigitChar _ (by omega)
    have huy : unhex (hexDigitChar (c.toNat % 16)) = some (c.toNat % 16) :=
      unhex_hexDigitChar _ (by omega)
    have hh4 : parseHex4
        ('0' :: '0' :: hexDigitChar (c.toNat / 16) :: hexDigitChar (c.toNat % 16) :: tail)
        = some (c.toNat, tail) := by
      simp [parseHex4, hu0, hux, huy]
      omega
    have h55 : ¬(55296 ≤ c.toNat ∧ c.toNat ≤ 56319) := by omega
    have h56 : ¬(56320 ≤ c.toNat ∧ c.toNat ≤ 57343) := by omega
    have hesc : parseEscape
        ('u' :: '0' :: '0' :: hexDigitChar (c.toNat / 16) :: hexDigitChar (c.toNat % 16) :: tail)
        = some (c, tail) := by
      simp [parseEscape, hh4, h55, h56, Char.ofNat_toNat]
    rw [he]
    simp [parseStringLoop, hesc]
  · have he : escapeChar c = [c] := by
      unfold escapeChar
      rw [if_neg h1, if_neg h2, if_neg h3, if_neg h4, if_neg h5, if_neg h6, if_neg h7,
        if_neg h8]
    rw [he, List.singleton_append]
    simp only [parseStringLoop]
    rw [if_neg h1, if_neg h2, if_neg h8]

theorem parseStringLoop_print (s : List Char) :
    ∀ (g : Nat) (rest : List Char), s.length < g + 1 →
      parseStringLoop (g + 1) (printStringBody s ++ '"' :: rest) = some (s, rest) := by
  induction s with
  | nil =>
    intro g rest _
    simp [printStringBody, parseStringLoop]
  | cons c s' ih =>
    intro g rest hlen
    have hshape : printStringBody (c :: s') ++ '"' :: rest
        = escapeChar c ++ (printStringBody s' ++ '"' :: rest) := by
      simp [printStringBody, List.append_assoc]
    rw [hshape, parseStringLoop_escapeChar]
    cases g with
    | zero => simp at hlen
    | succ g1 =>
      rw [ih g1 rest (by simpa using Nat.lt_of_succ_lt_succ hlen)]
      rfl

theorem parseStringLoop_len_print (d : List Char) (suffix : List Char) :
    parseStringLoop (printStringBody d ++ '"' :: suffix).length
      (printStringBody d ++ '"' :: suffix) = some (d, suffix) := by
  have hlen : (printStringBody d ++ '"' :: suffix).length
      = (printStringBody d).length + suffix.length + 1 := by
    simp only [List.length_append, List.length_cons]
    omega
  rw [hlen]
  exact parseStringLoop_print d _ suffix (by have := printStringBody_length d; omega)

theorem parseJsonV_print_str (fuel : Nat) (s : String) (rest : List Char) :
    parseJsonV (fuel + 1) (printString s ++ rest) = some (Json.str s, rest) := by
  have hshape : printString s ++ rest = '"' :: (printStringBody s.data ++ '"' :: rest) := by
    simp [printString]
  have hs := skipWs_cons_ne '"' (printStringBody s.data ++ '"' :: rest) (by decide)
  rw [hshape]
  simp only [parseJsonV, hs, if_true]
  rw [parseStringLoop_len_print s.data rest]
  simp [stringMk_data]

theorem parseMembers_print (fs : List (String × Json)) :
    ∀ (fuel : Nat) (rest : List Char),
      fs ≠ [] → fs.length ≤ fuel →
      (∀ kv ∈ fs, ∃ s, kv.2 = Json.str s) →
      parseMembers (fuel + 1) (printMembers fs ++ rbrace :: rest) = some (fs, rest) := by
  induction fs with
  | nil => intro fuel rest hne _ _; exact absurd rfl hne
  | cons kv fs' ih =>
    intro fuel rest _ hlen hstr
    obtain ⟨k, v⟩ := kv
    obtain ⟨s, hs⟩ := hstr (k, v) (by simp)
    simp only [] at hs
    subst hs
    cases fs' with
    | nil =>
      cases fuel with
      | zero => simp at hlen
      | succ g =>
        have hshape : printMembers [(k, Json.str s)] ++ rbrace :: rest
            = '"' :: (printStringBody k.data
                ++ '"' :: (':' :: (printJson (Json.str s) ++ rbrace :: rest))) := by
          simp [printMembers, printString]
        have hval : parseJsonV (g + 1) (printJson (Json.str s) ++ rbrace :: rest)
            = some (Json.str s, rbrace :: rest) := by
          simp only [printJson]
          exact parseJsonV_print_str g s (rbrace :: rest)
        have hs1 := skipWs_cons_ne '"'
          (printStringBody k.data ++ '"' :: (':' :: (printJson (Json.str s) ++ rbrace :: rest)))
          (by decide)
        have hs2 := skipWs_cons_ne ':' (printJson (Json.str s) ++ rbrace :: rest) (by decide)
        have hs3 := skipWs_cons_ne rbrace rest (by decide)
        rw [hshape, parseMembers]
        simp only [hs1, if_true]
        rw [parseStringLoop_len_print k.data (':' :: (printJson (Json.str s) ++ rbrace :: rest))]
        simp only [hs2, if_true]
        rw [hval]
        have hbc : ¬ rbrace = ',' := by decide
        simp [hs3, stringMk_data, hbc]
    | cons m ms =>
      cases fuel with
      | zero => simp at hlen
      | succ g =>
        have hshape : printMembers ((k, Json.str s) :: m :: ms) ++ rbrace :: rest
            = '"' :: (printStringBody k.data
                ++ '"' :: (':' :: (printJson (Json.str s)
                    ++ ',' :: (printMembers (m :: ms) ++ rbrace :: rest)))) := by
          simp [printMembers, printString]
        have hval : parseJsonV (g + 1)
            (printJson (Json.str s) ++ ',' :: (printMembers (m :: ms) ++ rbrace :: rest))
            = some (Json.str s, ',' :: (printMembers (m :: ms) ++ rbrace :: rest)) := by
          simp only [printJson]
          exact parseJsonV_print_str g s _
        have hcont : parseMembers (g + 1) (printMembers (m :: ms) ++ rbrace :: rest)
            = some (m :: ms, rest) := by
          cases g with
          | zero => simp at hlen
          | succ g2 =>
            exact ih (g2 + 1) rest (by simp) (by simp at hlen ⊢; omega)
              (fun kv2 hkv2 => hstr kv2 (List.mem_cons_of_mem _ hkv2))
        have hs1 := skipWs_cons_ne '"'
          (printStringBody k.data ++ '"' :: (':' :: (printJson (Json.str s)
            ++ ',' :: (printMembers (m :: ms) ++ rbrace :: rest)))) (by decide)
        have hs2 := skipWs_cons_ne ':' (printJson (Json.str s)
          ++ ',' :: (printMembers (m :: ms) ++ rbrace :: rest)) (by decide)
        have hs3 := skipWs_cons_ne ',' (printMembers (m :: ms) ++ rbrace :: rest) (by decide)
        rw [hshape, parseMembers]
        simp only [hs1, if_true]
        rw [parseStringLoop_len_print k.data (':' :: (printJson (Json.str s)
          ++ ',' :: (printMembers (m :: ms) ++ rbrace :: rest)))]
        simp only [hs2, if_true]
        rw [hval]
        simp [hs3, hcont, stringMk_data]

theorem printMembers_cons_shape (k : String) (v : Json) (fs' : List (String × Json)) :
    ∃ t, printMembers ((k, v) :: fs') = '"' :: t := by
  cases fs' with
  | nil =>
    exact ⟨printStringBody k.data ++ '"' :: (':' :: printJson v),
      by simp [printMembers, printString]⟩
  | cons m ms =>
    exact ⟨printStringBody k.data
        ++ '"' :: (':' :: (printJson v ++ ',' :: printMembers (m :: ms))),
      by simp [printMembers, printString]⟩

theorem parseJsonV_print_obj (fs : List (String × Json)) (fuel : Nat) (rest : List Char)
    (hne : fs ≠ []) (hlen : fs.length < fuel)
    (hstr : ∀ kv ∈ fs, ∃ s, kv.2 = Json.str s) :
    parseJsonV (fuel + 1) (printJson (Json.obj fs) ++ rest) = some (Json.obj fs, rest) := by
  cases fs with
  | nil => exact absurd rfl hne
  | cons kv fs' =>
    obtain ⟨k, v⟩ := kv
    obtain ⟨t, ht⟩ := printMembers_cons_shape k v fs'
    cases fuel with
    | zero => simp at hlen
    | succ g =>
      have hshape : printJson (Json.obj ((k, v) :: fs')) ++ rest
          = lbrace :: (printMembers ((k, v) :: fs') ++ rbrace :: rest) := by
        simp [printJson]
      have hmem : parseMembers (g + 1) (printMembers ((k, v) :: fs') ++ rbrace :: rest)
          = some ((k, v) :: fs', rest) :=
        parseMembers_print ((k, v) :: fs') g rest (by simp) (by simp at hlen ⊢; omega) hstr
      have hmem2 : parseMembers (g + 1) ('"' :: (t ++ rbrace :: rest))
          = some ((k, v) :: fs', rest) := by
        rw [← List.cons_append, ← ht]
        exact hmem
      have hs0 := skipWs_cons_ne lbrace ('"' :: (t ++ rbrace :: rest)) (by decide)
      have hs1 := skipWs_cons_ne '"' (t ++ rbrace :: rest) (by decide)
      rw [hshape, ht, List.cons_append]
      have hqb : ¬ ('"' : Char) = rbrace := by decide
      have hl1 : ¬ lbrace = 'n' := by decide
      have hl2 : ¬ lbrace = 't' := by decide
      have hl3 : ¬ lbrace = 'f' := by decide
      have hl4 : ¬ lbrace = '"' := by decide
      have hl5 : ¬ lbrace = '[' := by decide
      simp only [parseJsonV, hs0, if_true]
      simp only [hs1]
      simp [hmem2, hqb, hl1, hl2, hl3, hl4, hl5]

theorem requestFieldList_all_str (r : AgentRequest) :
    ∀ kv ∈ requestFieldList r, ∃ s, kv.2 = Json.str s := by
  have hopt : ∀ (o : Option String) (key : String) (kv : String × Json),
      kv ∈ (match o with
            | some m => [(key, Json.str m)]
            | none => ([] : List (String × Json))) →
      ∃ s, kv.2 = Json.str s := by
    intro o key kv h
    cases o with
    | none => simp at h
    | some m =>
      simp at h
      rw [h]
      exact ⟨m, rfl⟩
  intro kv hkv
  simp only [requestFieldList, List.mem_append, List.mem_cons, List.not_mem_nil,
    or_false] at hkv
  rcases hkv with (((h | h) | h) | h) | h
  · rw [h]; exact ⟨r.id, rfl⟩
  · rw [h]; exact ⟨r.kind, rfl⟩
  · exact hopt r.message _ _ h
  · exact hopt r.images _ _ h
  · exact hopt r.conversation_id _ _ h

theorem printMembers_length (fs : List (String × Json)) :
    fs.length ≤ (printMembers fs).length := by
  induction fs with
  | nil => simp [printMembers]
  | cons kv fs' ih =>
    obtain ⟨k, v⟩ := kv
    cases fs' with
    | nil => simp [printMembers, printString]
    | cons m ms =>
      simp only [printMembers, printString, List.length_append, List.length_cons] at *
      omega

theorem requestFromJson_fields (r : AgentRequest) :
    requestFromJson (Json.obj (requestFieldList r)) = some r := by
  rcases r with ⟨i, k, m, im, cid⟩
  cases m <;> cases im <;> cases cid <;>
    simp [requestFromJson, requestFieldList, getField, asOptString, List.find?]

/-- Claim C8: encoding a request to its serialized line and decoding
that line with the counterpart deserializer recovers a request with the
same field values, and every optional field that is absent in the
original is omitted from the serialized object entirely (its key does
not occur, rather than being serialized as null), hence it is absent in
the decoded value as well. -/
theorem request_roundtrip (r : AgentRequest) :
    decodeRequest (encodeRequest r) = some r ∧
    (r.message = none → ∀ v, (("message"), v) ∉ requestFieldList r) ∧
    (r.images = none → ∀ v, (("images"), v) ∉ requestFieldList r) ∧
    (r.conversation_id = none → ∀ v, (("conversation_id"), v) ∉ requestFieldList r) := by
  refine ⟨?_, ?_, ?_, ?_⟩
  · have hne : requestFieldList r ≠ [] := by
      rcases r with ⟨i, k, m, im, cid⟩
      simp [requestFieldList]
    have hstr := requestFieldList_all_str r
    have hlen : (requestFieldList r).length
        < (printJson (Json.obj (requestFieldList r))).length := by
      have h1 := printMembers_length (requestFieldList r)
      simp only [printJson, List.length_append, List.length_cons]
      omega
    have hobj := parseJsonV_print_obj (requestFieldList r)
      (printJson (Json.obj (requestFieldList r))).length [] hne hlen hstr
    rw [List.append_nil] at hobj
    have hdec := requestFromJson_fields r
    show decodeRequest (encodeRequest r) = some r
    simp only [decodeRequest, encodeRequest, requestToJson, parseJson, hobj]
    simp [skipWs, hdec]
  · intro h v
    rcases r with ⟨i, k, m, im, cid⟩
    simp only [] at h
    subst h
    cases im <;> cases cid <;> simp [requestFieldList]
  · intro h v
    rcases r with ⟨i, k, m, im, cid⟩
    simp only [] at h
    subst h
    cases m <;> cases cid <;> simp [requestFieldList]
  · intro h v
    rcases r with ⟨i, k, m, im, cid⟩
    simp only [] at h
    subst h
    cases m <;> cases im <;> simp [requestFieldList]

/-- Claim C8 witness: a concrete user_message request with absent
images and conversation_id round-trips to itself, and the images key is
absent from its serialized object. -/
theorem request_roundtrip_witness :
    decodeRequest (encodeRequest
        (AgentRequest.mk ("x") ("user_message") (some ("hi")) none none))
      = some (AgentRequest.mk ("x") ("user_message") (some ("hi")) none none) ∧
    (∀ v, (("images"), v) ∉ requestFieldList
        (AgentRequest.mk ("x") ("user_message") (some ("hi")) none none)) :=
  ⟨(request_roundtrip _).1, fun v => (request_roundtrip _).2.2.1 rfl v⟩

theorem updatePc_same (f : Bool → SendPc) (i : Bool) (v : SendPc) :
    Function.update f i v i = v := by
  simp [Function.update]

theorem updatePc_other (f : Bool → SendPc) (i x : Bool) (v : SendPc) (hx : x ≠ i) :
    Function.update f i v x = f x := by
  simp [Function.update, hx]

theorem inCrit_false_cases (st : SendPc) (h : inCrit st = false) :
    st = SendPc.start ∨ st = SendPc.done := by
  cases st <;> simp_all [inCrit]

theorem wireInv_elim (p : Bool → List Nat) (s : WireState) :
    WireInv p s ↔
      ((∀ i : Bool, inCrit (s.pc i) = true → s.lock = some i) ∧
       (∃ a : Bool, s.wire = contrib p (s.pc a) a ++ contrib p (s.pc (!a)) (!a)
          ∧ (contrib p (s.pc (!a)) (!a) = [] ∨ s.pc a = SendPc.done))) := Iff.rfl

theorem wireInv_iff (p : Bool → List Nat) (l : Option Bool) (f : Bool → SendPc)
    (w : List Nat) :
    WireInv p ⟨l, f, w⟩ ↔
      ((∀ i : Bool, inCrit (f i) = true → l = some i) ∧
       (∃ a : Bool, w = contrib p (f a) a ++ contrib p (f (!a)) (!a)
          ∧ (contrib p (f (!a)) (!a) = [] ∨ f a = SendPc.done))) := Iff.rfl

theorem pc_other_start_or_done (s : WireState)
    (hlock : ∀ i : Bool, inCrit (s.pc i) = true → s.lock = some i)
    (i : Bool) (hci : inCrit (s.pc i) = true) :
    s.pc (!i) = SendPc.start ∨ s.pc (!i) = SendPc.done := by
  apply inCrit_false_cases
  cases hb : inCrit (s.pc (!i)) with
  | false => rfl
  | true =>
    have h2 := hlock i hci
    have h3 := hlock (!i) hb
    rw [h2] at h3
    have h4 : i = !i := Option.some.inj h3
    cases i <;> simp at h4

theorem wireInv_init (p : Bool → List Nat) : WireInv p initWire := by
  rw [wireInv_elim]
  refine ⟨?_, false, ?_, Or.inl ?_⟩
  · intro i hi
    simp [initWire, inCrit] at hi
  · simp [initWire, contrib]
  · simp [initWire, contrib]

theorem wireInv_step (p : Bool → List Nat) (s t : WireState)
    (hinv : WireInv p s) (hstep : SendStep p s t) : WireInv p t := by
  rw [wireInv_elim] at hinv
  obtain ⟨hlock, a, hwire, hside⟩ := hinv
  cases hstep with
  | acquire i s h hl =>
    rw [wireInv_iff]
    have hc : ∀ x : Bool, contrib p (Function.update s.pc i SendPc.locked x) x
        = contrib p (s.pc x) x := by
      intro x
      by_cases hx : x = i
      · subst hx
        rw [updatePc_same, h]
        simp [contrib]
      · rw [updatePc_other _ _ _ _ hx]
    refine ⟨?_, a, ?_, ?_⟩
    · intro j hj
      by_cases hji : j = i
      · rw [hji]
      · rw [updatePc_other _ _ _ _ hji] at hj
        have h2 := hlock j hj
        rw [hl] at h2
        exact absurd h2 (by simp)
    · rw [hc a, hc (!a)]
      exact hwire
    · rcases hside with h1 | h1
      · left
        rw [hc (!a)]
        exact h1
      · right
        have hai : a ≠ i := by
          intro he
          rw [he, h] at h1
          simp at h1
        rw [updatePc_other _ _ _ _ hai]
        exact h1
  | writePayload i s h =>
    rw [wireInv_iff]
    have hci : inCrit (s.pc i) = true := by rw [h]; rfl
    have hli : s.lock = some i := hlock i hci
    have hnn : (!i) ≠ i := by cases i <;> simp
    constructor
    · intro j hj
      by_cases hji : j = i
      · rw [hji, hli]
      · rw [updatePc_other _ _ _ _ hji] at hj
        exact hlock j hj
    · by_cases hai : a = i
      · subst hai
        have hc2 : contrib p (s.pc (!a)) (!a) = [] := by
          rcases hside with h1 | h1
          · exact h1
          · rw [h] at h1
            simp at h1
        refine ⟨a, ?_, Or.inl ?_⟩
        · rw [updatePc_same, updatePc_other _ _ _ _ hnn, hwire, h, hc2]
          simp [contrib]
        · rw [updatePc_other _ _ _ _ hnn]
          exact hc2
      · have hna : (!a) = i := by
          cases a <;> cases i <;> simp_all
        have ha2 : a = (!i) := by
          cases a <;> cases i <;> simp_all
        rw [hna] at hwire hside
        have hother := pc_other_start_or_done s hlock i hci
        rw [← ha2] at hother
        rcases hother with hstart | hdone
        · have hstart2 : s.pc (!i) = SendPc.start := by
            rw [← ha2]
            exact hstart
          refine ⟨i, ?_, Or.inl ?_⟩
          · rw [updatePc_same, updatePc_other _ _ _ _ hnn, hwire, hstart, h,
              hstart2]
            simp [contrib]
          · rw [updatePc_other _ _ _ _ hnn, hstart2]
            simp [contrib]
        · refine ⟨a, ?_, Or.inr ?_⟩
          · rw [hna, updatePc_other _ _ _ _ hai, updatePc_same, hwire, h, hdone]
            simp [contrib]
          · rw [updatePc_other _ _ _ _ hai]
            exact hdone
  | writeNewline i s h =>
    rw [wireInv_iff]
    have hci : inCrit (s.pc i) = true := by rw [h]; rfl
    have hli : s.lock = some i := hlock i hci
    have hnn : (!i) ≠ i := by cases i <;> simp
    constructor
    · intro j hj
      by_cases hji : j = i
      · rw [hji, hli]
      · rw [updatePc_other _ _ _ _ hji] at hj
        exact hlock j hj
    · by_cases hai : a = i
      · subst hai
        have hc2 : contrib p (s.pc (!a)) (!a) = [] := by
          rcases hside with h1 | h1
          · exact h1
          · rw [h] at h1
            simp at h1
        refine ⟨a, ?_, Or.inl ?_⟩
        · rw [updatePc_same, updatePc_other _ _ _ _ hnn, hwire, h, hc2]
          simp [contrib]
        · rw [updatePc_other _ _ _ _ hnn]
          exact hc2
      · have hna : (!a) = i := by
          cases a <;> cases i <;> simp_all
        have ha2 : a = (!i) := by
          cases a <;> cases i <;> simp_all
        rw [hna] at hwire hside
        have hother := pc_other_start_or_done s hlock i hci
        rw [← ha2] at hother
        rcases hother with hstart | hdone
        · have hstart2 : s.pc (!i) = SendPc.start := by
            rw [← ha2]
            exact hstart
          refine ⟨i, ?_, Or.inl ?_⟩
          · rw [updatePc_same, updatePc_other _ _ _ _ hnn, hwire, hstart, h,
              hstart2]
            simp [contrib]
          · rw [updatePc_other _ _ _ _ hnn, hstart2]
            simp [contrib]
        · refine ⟨a, ?_, Or.inr ?_⟩
          · rw [hna, updatePc_other _ _ _ _ hai, updatePc_same, hwire, h, hdone]
            simp [contrib]
          · rw [updatePc_other _ _ _ _ hai]
            exact hdone
  | flushPipe i s h =>
    rw [wireInv_iff]
    have hci : inCrit (s.pc i) = true := by rw [h]; rfl
    have hli : s.lock = some i := hlock i hci
    have hc : ∀ x : Bool, contrib p (Function.update s.pc i SendPc.flushed x) x
        = contrib p (s.pc x) x := by
      intro x
      by_cases hx : x = i
      · subst hx
        rw [updatePc_same, h]
        simp [contrib]
      · rw [updatePc_other _ _ _ _ hx]
    refine ⟨?_, a, ?_, ?_⟩
    · intro j hj
      by_cases hji : j = i
      · rw [hji, hli]
      · rw [updatePc_other _ _ _ _ hji] at hj
        exact hlock j hj
    · rw [hc a, hc (!a)]
      exact hwire
    · rcases hside with h1 | h1
      · left
        rw [hc (!a)]
        exact h1
      · right
        have hai : a ≠ i := by
          intro he
          rw [he, h] at h1
          simp at h1
        rw [updatePc_other _ _ _ _ hai]
        exact h1
  | release i s h =>
    rw [wireInv_iff]
    have hci : inCrit (s.pc i) = true := by rw [h]; rfl
    have hli : s.lock = some i := hlock i hci
    have hc : ∀ x : Bool, contrib p (Function.update s.pc i SendPc.done x) x
        = contrib p (s.pc x) x := by
      intro x
      by_cases hx : x = i
      · subst hx
        rw [updatePc_same, h]
        simp [contrib]
      · rw [updatePc_other _ _ _ _ hx]
    refine ⟨?_, a, ?_, ?_⟩
    · intro j hj
      by_cases hji : j = i
      · rw [hji, updatePc_same] at hj
        simp [inCrit] at hj
      · rw [updatePc_other _ _ _ _ hji] at hj
        have h2 := hlock j hj
        rw [hli] at h2
        exact absurd (Option.some.inj h2) (fun he => hji he.symm)
    · rw [hc a, hc (!a)]
      exact hwire
    · rcases hside with h1 | h1
      · left
        rw [hc (!a)]
        exact h1
      · right
        have hai : a ≠ i := by
          intro he
          rw [he, h] at h1
          simp at h1
        rw [updatePc_other _ _ _ _ hai]
        exact h1

theorem wireInv_reach (p : Bool → List Nat) (s : WireState)
    (h : SendReach p s) : WireInv p s := by
  induction h with
  | init => exact wireInv_init p
  | step s t hr hs ih => exact wireInv_step p s t ih hs

/-- Claim C9: because every send_request call performs its stdin
writes (payload bytes, newline terminator, flush) while holding the
stdin mutex, two concurrent calls never interleave their bytes: in any
reachable state of the two-sender system in which both calls have
completed, the bytes written to the child process's stdin are one
request's complete serialized line followed by the other's, in one of
the two orders. -/
theorem send_no_interleaving (r0 r1 : AgentRequest) (s : WireState)
    (hreach : SendReach (reqPayloads r0 r1) s)
    (h0 : s.pc false = SendPc.done) (h1 : s.pc true = SendPc.done) :
    s.wire = reqLine r0 ++ reqLine r1 ∨ s.wire = reqLine r1 ++ reqLine r0 := by
  have hI := wireInv_reach (reqPayloads r0 r1) s hreach
  rw [wireInv_elim] at hI
  obtain ⟨-, a, hwire, -⟩ := hI
  cases a with
  | false =>
    left
    simp only [Bool.not_false] at hwire
    rw [h0, h1] at hwire
    rw [hwire]
    simp [contrib, reqPayloads, reqLine]
  | true =>
    right
    simp only [Bool.not_true] at hwire
    rw [h1, h0] at hwire
    rw [hwire]
    simp [contrib, reqPayloads, reqLine]

/-- Claim C9 witness: the schedule in which the send_message call
(task false) runs to completion and then the interrupt call (task
true) does is reachable, and the wire it produces is the two complete
lines in order. -/
theorem send_no_interleaving_witness :
    ((((([] : List Nat) ++ reqPayloads witnessReq0 witnessReq1 false) ++ [10])
        ++ reqPayloads witnessReq0 witnessReq1 true) ++ [10])
        = reqLine witnessReq0 ++ reqLine witnessReq1
    ∨ ((((([] : List Nat) ++ reqPayloads witnessReq0 witnessReq1 false) ++ [10])
        ++ reqPayloads witnessReq0 witnessReq1 true) ++ [10])
        = reqLine witnessReq1 ++ reqLine witnessReq0 := by
  have t0 : SendReach (reqPayloads witnessReq0 witnessReq1) initWire :=
    SendReach.init
  have t1 := SendReach.step _ _ t0 (SendStep.acquire false _ rfl rfl)
  have t2 := SendReach.step _ _ t1 (SendStep.writePayload false _ rfl)
  have t3 := SendReach.step _ _ t2 (SendStep.writeNewline false _ rfl)
  have t4 := SendReach.step _ _ t3 (SendStep.flushPipe false _ rfl)
  have t5 := SendReach.step _ _ t4 (SendStep.release false _ rfl)
  have t6 := SendReach.step _ _ t5 (SendStep.acquire true _ rfl rfl)
  have t7 := SendReach.step _ _ t6 (SendStep.writePayload true _ rfl)
  have t8 := SendReach.step _ _ t7 (SendStep.writeNewline true _ rfl)
  have t9 := SendReach.step _ _ t8 (SendStep.flushPipe true _ rfl)
  have t10 := SendReach.step _ _ t9 (SendStep.release true _ rfl)
  exact send_no_interleaving witnessReq0 witnessReq1 _ t10 rfl rfl
